import Mathlib

/-!
Shallow embedding of the goshell repository (main.go): the input parser,
the builtin dispatcher, the pipeline executor with its cancellation
handling, and the history-recording decision of the main loop.

Strings are modelled as lists of characters.  OS-level errors are
abstracted as numeric codes.  Effectful behaviour (process spawning,
waiting, chdir, writing to the history file) is modelled by an
environment record that fixes the outcome of every OS interaction, and
by an event trace listing the observable actions the code performs.
-/

/-- Whitespace as in Go's unicode.IsSpace, restricted to the Latin-1
range: space, tab, newline, vertical tab, form feed, carriage return,
NEL and NBSP.  Used by both strings.TrimSpace and strings.Fields. -/
def isSpaceGo (c : Char) : Bool :=
  c = ' ' || c = '\t' || c = '\n' || c = '\x0b' || c = '\x0c' || c = '\r' ||
    c = '\u0085' || c = '\u00A0'

/-- strings.TrimSpace: drop leading and trailing whitespace. -/
def trimSpace (s : List Char) : List Char :=
  ((s.dropWhile isSpaceGo).reverse.dropWhile isSpaceGo).reverse

/-- strings.Split generalised to a character predicate: cut the list at
every character satisfying p (the separators are dropped); always
returns at least one, possibly empty, piece.  strings.Split(s, "|") is
splitP (fun c => c = '|') s. -/
def splitP (p : Char → Bool) : List Char → List (List Char)
  | [] => [[]]
  | c :: rest =>
    if p c then [] :: splitP p rest
    else
      match splitP p rest with
      | [] => [[c]]
      | g :: gs => (c :: g) :: gs

/-- strings.Fields: the maximal runs of non-whitespace characters. -/
def fieldsGo (s : List Char) : List (List Char) :=
  (splitP isSpaceGo s).filter (fun t => !t.isEmpty)

/-- The Command struct of main.go: a command name and its arguments. -/
structure Command where
  name : List Char
  args : List (List Char)
  deriving DecidableEq

/-- Errors produced by the shell.  The two fmt.Errorf sites are given
their own constructors; every error coming back from the OS (exec,
chdir, file I/O) is abstracted as a numeric code. -/
inductive ShellError where
  | invalidInput (stage : List Char)
  | builtinInPipeline (name : List Char)
  | os (code : Nat)
  deriving DecidableEq

deriving instance DecidableEq for Except

/-- The loop body of parseInput: for each piped stage substring, trim
it, tokenize it on whitespace, and take the first field as the command
name and the rest as arguments; a stage with zero fields aborts the
whole parse with an invalid-input error (Go returns on the first such
stage). -/
def parseStages : List (List Char) → Except ShellError (List Command)
  | [] => Except.ok []
  | stage :: rest =>
    let t := trimSpace stage
    match fieldsGo t with
    | [] => Except.error (ShellError.invalidInput t)
    | c :: as =>
      match parseStages rest with
      | Except.error e => Except.error e
      | Except.ok cmds => Except.ok (Command.mk c as :: cmds)

/-- parseInput of main.go: trim the raw line; an empty result is the
empty pipeline; otherwise split on the pipe character and parse each
stage in order. -/
def parseInput (input : List Char) : Except ShellError (List Command) :=
  let t := trimSpace input
  if t = [] then Except.ok []
  else parseStages (splitP (fun c => c = '|') t)

/-- Modelled from the spec's words (section 4.1), for comparison with
parseInput: each stage substring is trimmed and tokenized on
whitespace; the first field is the command name, the remaining fields
are the arguments; zero fields is a syntax error naming the (trimmed)
empty stage. -/
def parseStageSpec (stage : List Char) : Except ShellError Command :=
  match fieldsGo (trimSpace stage) with
  | [] => Except.error (ShellError.invalidInput (trimSpace stage))
  | c :: as => Except.ok (Command.mk c as)

/-- Modelled from the spec's words (section 4.1), for comparison with
parseInput: trim surrounding whitespace; empty result is the empty
pipeline; otherwise split the trimmed line on the pipe delimiter and
parse the stages left to right, aborting on the first bad stage. -/
def parseSpec (input : List Char) : Except ShellError (List Command) :=
  let t := trimSpace input
  if t = [] then Except.ok []
  else (splitP (fun c => c = '|') t).mapM parseStageSpec

/-- Observable actions of one read-eval iteration.  start i / wait i
are the Start and Wait calls on the i-th pipeline stage; newline is the
fmt.Println() in handleCommandError; runSingle is the cmd.Run of a
single external command; historyOut is the history builtin streaming
the log; appendHist is saveHistory writing the raw line; histWarn is
main's warning print on a history write failure; closeHist is
closeHistory closing the log handle. -/
inductive Event where
  | start (i : Nat)
  | wait (i : Nat)
  | newline
  | runSingle (name : List Char) (args : List (List Char))
  | historyOut (content : List Char)
  | appendHist (line : List Char)
  | histWarn
  | closeHist
  deriving DecidableEq

/-- Result of executing a pipeline: either a normal return carrying an
optional error, or process termination via os.Exit with the given
status code (which, in Go, terminates immediately and does not run
deferred functions). -/
inductive ExecResult where
  | normal (err : Option ShellError)
  | exited (code : Nat)
  deriving DecidableEq

/-- The environment: the outcomes of every OS interaction one
iteration can perform.  chdirErr gives os.Chdir's result per target
path; runErr is cmd.Run's result for a single external command;
cancelled is whether ctx.Err() is context.Canceled when
handleCommandError inspects it; pipeErr / startErr / waitErr give the
per-stage results of StdoutPipe, Start and Wait in a multi-stage
pipeline; historyErr / historyContents drive the history builtin;
histOpen is whether initHistory succeeded (historyFile is non-nil) and
histWriteErr is WriteString's result in saveHistory. -/
structure Env where
  home : List Char
  chdirErr : List Char → Option Nat
  runErr : Option Nat
  cancelled : Bool
  pipeErr : Nat → Option Nat
  startErr : Nat → Option Nat
  waitErr : Nat → Option Nat
  historyErr : Option Nat
  historyContents : List Char
  histOpen : Bool
  histWriteErr : Option Nat

/-- handleCommandError of main.go: when the wait error is non-nil and
the context is cancelled, print one newline and report success;
otherwise return the error unchanged. -/
def handleCommandError (cancelled : Bool) (err : Option Nat) :
    List Event × Option ShellError :=
  match err with
  | none => ([], none)
  | some e =>
    if cancelled then ([Event.newline], none)
    else ([], some (ShellError.os e))

/-- executeNotBuiltInCommand of main.go: run one external command
bound to a fresh cancellation context and translate its result through
handleCommandError. -/
def executeNotBuiltInCommand (env : Env) (name : List Char)
    (args : List (List Char)) : List Event × Option ShellError :=
  let h := handleCommandError env.cancelled env.runErr
  (Event.runSingle name args :: h.1, h.2)

/-- The target directory chosen by executeCdCommand: args[0] when an
argument is present, otherwise $HOME. -/
def cdTarget (env : Env) (args : List (List Char)) : List Char :=
  match args with
  | [] => env.home
  | a :: _ => a

/-- executeCdCommand of main.go: os.Chdir to the target; on success
the working directory becomes the target, on failure it is unchanged
and the OS error is returned as is. -/
def executeCdCommand (env : Env) (cwd : List Char)
    (args : List (List Char)) : List Char × Option ShellError :=
  match env.chdirErr (cdTarget env args) with
  | none => (cdTarget env args, none)
  | some e => (cwd, some (ShellError.os e))

/-- displayHistory of main.go: open and stream the log to stdout, or
return the I/O error. -/
def displayHistory (env : Env) : List Event × Option ShellError :=
  match env.historyErr with
  | some e => ([], some (ShellError.os e))
  | none => ([Event.historyOut env.historyContents], none)

/-- executeSingleCommand of main.go: dispatch on the command name;
empty is a no-op, exit calls os.Exit(0), cd and history are builtins,
anything else is an external command. -/
def executeSingleCommand (env : Env) (cwd : List Char) (c : Command) :
    List Event × List Char × ExecResult :=
  if c.name = ([] : List Char) then ([], cwd, ExecResult.normal none)
  else if c.name = "exit".data then ([], cwd, ExecResult.exited 0)
  else if c.name = "cd".data then
    let r := executeCdCommand env cwd c.args
    ([], r.1, ExecResult.normal r.2)
  else if c.name = "history".data then
    let r := displayHistory env
    (r.1, cwd, ExecResult.normal r.2)
  else
    let r := executeNotBuiltInCommand env c.name c.args
    (r.1, cwd, ExecResult.normal r.2)

/-- The builtin check of executePipeline: the name of the first stage
called cd or exit, if any. -/
def firstRestrictedBuiltin : List Command → Option (List Char)
  | [] => none
  | c :: rest =>
    if c.name = "cd".data ∨ c.name = "exit".data then some c.name
    else firstRestrictedBuiltin rest

/-- The StdoutPipe wiring loop of executePipeline: StdoutPipe is
called for stages i, i+1, ... (n of them); the first failure aborts
with that OS error. -/
def pipeLoop (env : Env) : Nat → Nat → Option ShellError
  | _, 0 => none
  | i, n + 1 =>
    match env.pipeErr i with
    | some e => some (ShellError.os e)
    | none => pipeLoop env (i + 1) n

/-- The Start loop of executePipeline: start stages i, i+1, ... (n of
them) in order; the first Start failure aborts with that OS error,
leaving the earlier stages started. -/
def startLoop (env : Env) : Nat → Nat → List Event × Option ShellError
  | _, 0 => ([], none)
  | i, n + 1 =>
    match env.startErr i with
    | some e => ([], some (ShellError.os e))
    | none =>
      let r := startLoop env (i + 1) n
      (Event.start i :: r.1, r.2)

/-- The Wait loop of executePipeline: wait on stages i, i+1, ... (n of
them) in order; the first Wait failure returns immediately, translated
through handleCommandError. -/
def waitLoop (env : Env) : Nat → Nat → List Event × Option ShellError
  | _, 0 => ([], none)
  | i, n + 1 =>
    match env.waitErr i with
    | some e =>
      let h := handleCommandError env.cancelled (some e)
      (Event.wait i :: h.1, h.2)
    | none =>
      let r := waitLoop env (i + 1) n
      (Event.wait i :: r.1, r.2)

/-- The multi-stage branch of executePipeline: reject restricted
builtins before spawning anything; wire the n-1 pipes; start all
stages; then wait on them in start order. -/
def execMulti (env : Env) (cwd : List Char) (commands : List Command) :
    List Event × List Char × ExecResult :=
  match firstRestrictedBuiltin commands with
  | some nm => ([], cwd, ExecResult.normal (some (ShellError.builtinInPipeline nm)))
  | none =>
    match pipeLoop env 0 (commands.length - 1) with
    | some e => ([], cwd, ExecResult.normal (some e))
    | none =>
      let s := startLoop env 0 commands.length
      match s.2 with
      | some e => (s.1, cwd, ExecResult.normal (some e))
      | none =>
        let w := waitLoop env 0 commands.length
        (s.1 ++ w.1, cwd, ExecResult.normal w.2)

/-- executePipeline of main.go: empty pipeline is a no-op, a single
stage goes to executeSingleCommand, two or more stages go to the
multi-stage executor. -/
def executePipeline (env : Env) (cwd : List Char) (commands : List Command) :
    List Event × List Char × ExecResult :=
  match commands with
  | [] => ([], cwd, ExecResult.normal none)
  | [c] => executeSingleCommand env cwd c
  | c1 :: c2 :: rest => execMulti env cwd (c1 :: c2 :: rest)

/-- shouldBeInHistory of main.go: empty pipelines are not saved, piped
(multi-stage) pipelines always are, and a single command is saved
unless it is history or exit. -/
def shouldBeInHistory : List Command → Bool
  | [] => false
  | [c] => decide (c.name ≠ "history".data ∧ c.name ≠ "exit".data)
  | _ :: _ :: _ => true

/-- saveHistory of main.go: a silent no-op returning nil when the
history handle is nil; otherwise WriteString the raw line, returning
its error. -/
def saveHistory (histOpen : Bool) (writeErr : Option Nat)
    (input : List Char) : List Event × Option ShellError :=
  if histOpen then
    match writeErr with
    | some e => ([], some (ShellError.os e))
    | none => ([Event.appendHist input], none)
  else ([], none)

/-- One iteration of main's read-eval loop on a raw input line: parse;
on a parse error print it and continue; otherwise execute the
pipeline, and - unless os.Exit already terminated the process, which
in Go skips main's deferred closeHistory - append the raw line to the
history when shouldBeInHistory says so, warning on a write failure.
The third component is the exit status when the process terminated
during this iteration. -/
def loopIteration (env : Env) (cwd : List Char) (input : List Char) :
    List Event × List Char × Option Nat :=
  match parseInput input with
  | Except.error _ => ([], cwd, none)
  | Except.ok commands =>
    match executePipeline env cwd commands with
    | (evs, cwd2, ExecResult.exited code) => (evs, cwd2, some code)
    | (evs, cwd2, ExecResult.normal _) =>
      if shouldBeInHistory commands then
        let s := saveHistory env.histOpen env.histWriteErr input
        match s.2 with
        | some _ => (evs ++ s.1 ++ [Event.histWarn], cwd2, none)
        | none => (evs ++ s.1, cwd2, none)
      else (evs, cwd2, none)

/-! Lemmas about the parser. -/

theorem fieldsGo_ne_nil {s t : List Char} (h : t ∈ fieldsGo s) : t ≠ [] := by
  rcases List.mem_filter.mp h with ⟨-, h2⟩
  cases t with
  | nil => simp at h2
  | cons a l => simp

theorem parseStages_eq_mapM (l : List (List Char)) :
    parseStages l = l.mapM parseStageSpec := by
  induction l with
  | nil => rfl
  | cons s rest ih =>
    rw [List.mapM_cons, ← ih]
    simp only [parseStages, parseStageSpec]
    generalize fieldsGo (trimSpace s) = fs
    cases fs with
    | nil => rfl
    | cons c as => cases hr : parseStages rest <;> rfl

theorem parseStages_ok_names {stages : List (List Char)} {cmds : List Command}
    (h : parseStages stages = Except.ok cmds) : ∀ c ∈ cmds, c.name ≠ [] := by
  induction stages generalizing cmds with
  | nil =>
    simp [parseStages] at h
    subst h
    intro c hc
    simp at hc
  | cons s rest ih =>
    cases hf : fieldsGo (trimSpace s) with
    | nil => simp [parseStages, hf] at h
    | cons c as =>
      cases hr : parseStages rest with
      | error e => simp [parseStages, hf, hr] at h
      | ok cs =>
        simp [parseStages, hf, hr] at h
        subst h
        intro x hx
        rcases List.mem_cons.mp hx with hx | hx
        · subst hx
          exact fieldsGo_ne_nil (hf ▸ List.mem_cons_self c as)
        · exact ih hr x hx

theorem parseStages_error_of_empty_stage {stages : List (List Char)}
    (h : ∃ st ∈ stages, fieldsGo (trimSpace st) = []) :
    ∃ st ∈ stages, parseStages stages = Except.error (ShellError.invalidInput (trimSpace st)) ∧
      fieldsGo (trimSpace st) = [] := by
  induction stages with
  | nil => rcases h with ⟨st, h1, -⟩; simp at h1
  | cons s rest ih =>
    cases hf : fieldsGo (trimSpace s) with
    | nil =>
      exact ⟨s, List.mem_cons_self s rest, by simp [parseStages, hf], hf⟩
    | cons c as =>
      rcases h with ⟨st, h1, h2⟩
      rcases List.mem_cons.mp h1 with rfl | h1
      · rw [hf] at h2; cases h2
      · rcases ih ⟨st, h1, h2⟩ with ⟨st', h1', h2', h3'⟩
        exact ⟨st', List.mem_cons_of_mem s h1', by simp [parseStages, hf, h2'], h3'⟩

/-- C3: parseInput trims surrounding whitespace, returns the empty
pipeline on an empty result, and otherwise splits on the pipe
character and turns each trimmed stage's whitespace fields into a
command name followed by its arguments, exactly as the spec describes
(parseSpec); in particular parse of a vertical-bar line with three
stages yields the three expected stages. -/
theorem parseInput_meets_spec :
    (∀ s : List Char, parseInput s = parseSpec s) ∧
    (∀ s : List Char, trimSpace s = [] → parseInput s = Except.ok []) ∧
    parseInput "a | b c | d".data =
      Except.ok [Command.mk "a".data [], Command.mk "b".data ["c".data],
        Command.mk "d".data []] := by
  refine ⟨fun s => ?_, fun s h => ?_, by decide⟩
  · unfold parseInput parseSpec
    by_cases h : trimSpace s = []
    · simp [h]
    · simp [h, parseStages_eq_mapM]
  · simp [parseInput, h]

/-- C4: an input whose trimmed form is non-empty and in which some
pipe-separated stage tokenizes to zero whitespace fields makes
parseInput abort the whole line with an invalid-input error naming
that (trimmed, hence empty) stage; no pipeline is returned. -/
theorem parseInput_empty_stage_error (input : List Char)
    (h0 : trimSpace input ≠ [])
    (h1 : ∃ st ∈ splitP (fun c => c = '|') (trimSpace input),
      fieldsGo (trimSpace st) = []) :
    ∃ st ∈ splitP (fun c => c = '|') (trimSpace input),
      parseInput input = Except.error (ShellError.invalidInput (trimSpace st)) ∧
        fieldsGo (trimSpace st) = [] := by
  rcases parseStages_error_of_empty_stage h1 with ⟨st, hmem, heq, hf⟩
  exact ⟨st, hmem, by simp [parseInput, h0, heq], hf⟩

/-- Witness for C4 at the spec's own example, a line whose middle
stage is blank. -/
theorem parseInput_empty_stage_error_witness :
    ∃ st ∈ splitP (fun c => c = '|') (trimSpace "a |   | b".data),
      parseInput "a |   | b".data =
        Except.error (ShellError.invalidInput (trimSpace st)) ∧
        fieldsGo (trimSpace st) = [] :=
  parseInput_empty_stage_error "a |   | b".data (by decide) (by decide)

/-- C9: every stage of a successfully parsed pipeline has a non-empty
name; an empty name can therefore only stand for "no command" and
never occurs inside a non-empty parsed pipeline. -/
theorem parseInput_nonempty_names (input : List Char) (cmds : List Command)
    (h : parseInput input = Except.ok cmds) : ∀ c ∈ cmds, c.name ≠ [] := by
  unfold parseInput at h
  by_cases ht : trimSpace input = []
  · simp [ht] at h
    subst h
    intro c hc
    simp at hc
  · simp [ht] at h
    exact parseStages_ok_names h

/-- Witness for C9 on a concrete single-command line. -/
theorem parseInput_nonempty_names_witness :
    (Command.mk "ls".data ["-la".data]).name ≠ [] :=
  parseInput_nonempty_names "ls -la".data [Command.mk "ls".data ["-la".data]]
    (by decide) (Command.mk "ls".data ["-la".data]) (by decide)

/-! Lemmas about the pipeline executor's loops. -/

/-- The trace of a loop over stage indices i, i+1, ... (n of them). -/
def eventRange (f : Nat → Event) : Nat → Nat → List Event
  | _, 0 => []
  | i, n + 1 => f i :: eventRange f (i + 1) n

theorem eventRange_mem {f : Nat → Event} :
    ∀ n i e, e ∈ eventRange f i n → ∃ j, j < n ∧ e = f (i + j) := by
  intro n
  induction n with
  | zero => intro i e he; simp [eventRange] at he
  | succ n ih =>
    intro i e he
    rw [eventRange] at he
    rcases List.mem_cons.mp he with rfl | he
    · exact ⟨0, n.succ_pos, by simp⟩
    · rcases ih (i + 1) e he with ⟨j, hj, hje⟩
      exact ⟨j + 1, by omega, by rw [hje]; congr 1; omega⟩

theorem newline_not_mem_eventRange_start (i n : Nat) :
    Event.newline ∉ eventRange Event.start i n := by
  intro h
  rcases eventRange_mem n i Event.newline h with ⟨j, -, hj⟩
  cases hj

theorem newline_not_mem_eventRange_wait (i n : Nat) :
    Event.newline ∉ eventRange Event.wait i n := by
  intro h
  rcases eventRange_mem n i Event.newline h with ⟨j, -, hj⟩
  cases hj

theorem pipeLoop_eq_none {env : Env} (n : Nat) :
    ∀ i, (∀ j, j < n → env.pipeErr (i + j) = none) → pipeLoop env i n = none := by
  induction n with
  | zero => intro i _; rfl
  | succ n ih =>
    intro i h
    have h0 : env.pipeErr i = none := by simpa using h 0 n.succ_pos
    simp only [pipeLoop, h0]
    exact ih (i + 1) (fun j hj => by
      have hh := h (j + 1) (by omega)
      rwa [show i + (j + 1) = i + 1 + j by omega] at hh)

theorem startLoop_allOk {env : Env} (n : Nat) :
    ∀ i, (∀ j, j < n → env.startErr (i + j) = none) →
      startLoop env i n = (eventRange Event.start i n, none) := by
  induction n with
  | zero => intro i _; rfl
  | succ n ih =>
    intro i h
    have h0 : env.startErr i = none := by simpa using h 0 n.succ_pos
    simp only [startLoop, h0]
    rw [ih (i + 1) (fun j hj => by
      have hh := h (j + 1) (by omega)
      rwa [show i + (j + 1) = i + 1 + j by omega] at hh)]
    simp [eventRange]

theorem waitLoop_allOk {env : Env} (n : Nat) :
    ∀ i, (∀ j, j < n → env.waitErr (i + j) = none) →
      waitLoop env i n = (eventRange Event.wait i n, none) := by
  induction n with
  | zero => intro i _; rfl
  | succ n ih =>
    intro i h
    have h0 : env.waitErr i = none := by simpa using h 0 n.succ_pos
    simp only [waitLoop, h0]
    rw [ih (i + 1) (fun j hj => by
      have hh := h (j + 1) (by omega)
      rwa [show i + (j + 1) = i + 1 + j by omega] at hh)]
    simp [eventRange]

theorem waitLoop_firstFail {env : Env} (k : Nat) :
    ∀ n i e, k < n → (∀ j, j < k → env.waitErr (i + j) = none) →
      env.waitErr (i + k) = some e →
      waitLoop env i n =
        (eventRange Event.wait i (k + 1) ++
           (if env.cancelled then [Event.newline] else []),
         if env.cancelled then none else some (ShellError.os e)) := by
  induction k with
  | zero =>
    intro n i e hk h0 hke
    cases n with
    | zero => omega
    | succ n =>
      have hi : env.waitErr i = some e := by simpa using hke
      simp only [waitLoop, hi, handleCommandError]
      cases hc : env.cancelled <;> simp [eventRange]
  | succ k ih =>
    intro n i e hk h0 hke
    cases n with
    | zero => omega
    | succ n =>
      have hi : env.waitErr i = none := by simpa using h0 0 k.succ_pos
      simp only [waitLoop, hi]
      rw [ih n (i + 1) e (by omega)
        (fun j hj => by
          have hh := h0 (j + 1) (by omega)
          rwa [show i + (j + 1) = i + 1 + j by omega] at hh)
        (by rwa [show i + (k + 1) = i + 1 + k by omega] at hke)]
      simp [eventRange]

/-! Lemmas about the restricted-builtin check. -/

theorem frb_eq_none {commands : List Command}
    (h : ∀ c ∈ commands, c.name ≠ "cd".data ∧ c.name ≠ "exit".data) :
    firstRestrictedBuiltin commands = none := by
  induction commands with
  | nil => rfl
  | cons c rest ih =>
    have hc := h c (List.mem_cons_self c rest)
    simp only [firstRestrictedBuiltin]
    rw [if_neg (by tauto)]
    exact ih (fun x hx => h x (List.mem_cons_of_mem c hx))

theorem frb_some_of_mem {commands : List Command}
    (h : ∃ c ∈ commands, c.name = "cd".data ∨ c.name = "exit".data) :
    ∃ nm, firstRestrictedBuiltin commands = some nm ∧
      (∃ c ∈ commands, c.name = nm) ∧
      (nm = "cd".data ∨ nm = "exit".data) := by
  induction commands with
  | nil => rcases h with ⟨c, hc, -⟩; simp at hc
  | cons c rest ih =>
    by_cases hc : c.name = "cd".data ∨ c.name = "exit".data
    · exact ⟨c.name, by simp [firstRestrictedBuiltin, hc],
        ⟨c, List.mem_cons_self c rest, rfl⟩, hc⟩
    · rcases h with ⟨d, hd, hdr⟩
      rcases List.mem_cons.mp hd with rfl | hd
      · exact absurd hdr hc
      · rcases ih ⟨d, hd, hdr⟩ with ⟨nm, h1, ⟨x, hx, hxn⟩, h3⟩
        exact ⟨nm, by simp [firstRestrictedBuiltin, hc, h1],
          ⟨x, List.mem_cons_of_mem c hx, hxn⟩, h3⟩

/-! No pipeline-execution step touches the history log: the executor's
event trace never contains an append or a history-warning event. -/

/-- Events that touch the history log on the write path. -/
def isHistEvent : Event → Bool
  | Event.appendHist _ => true
  | Event.histWarn => true
  | _ => false

theorem handleCommandError_no_hist (b : Bool) (err : Option Nat) :
    ∀ e ∈ (handleCommandError b err).1, isHistEvent e = false := by
  intro e he
  cases err with
  | none => simp [handleCommandError] at he
  | some x =>
    cases b with
    | false => simp [handleCommandError] at he
    | true =>
      simp [handleCommandError] at he
      subst he
      rfl

theorem startLoop_no_hist {env : Env} (n : Nat) :
    ∀ i, ∀ e ∈ (startLoop env i n).1, isHistEvent e = false := by
  induction n with
  | zero => intro i e he; simp [startLoop] at he
  | succ n ih =>
    intro i e he
    cases h : env.startErr i with
    | some x => simp [startLoop, h] at he
    | none =>
      simp only [startLoop, h] at he
      rcases List.mem_cons.mp he with rfl | he
      · rfl
      · exact ih (i + 1) e he

theorem waitLoop_no_hist {env : Env} (n : Nat) :
    ∀ i, ∀ e ∈ (waitLoop env i n).1, isHistEvent e = false := by
  induction n with
  | zero => intro i e he; simp [waitLoop] at he
  | succ n ih =>
    intro i e he
    cases h : env.waitErr i with
    | some x =>
      simp only [waitLoop, h] at he
      rcases List.mem_cons.mp he with rfl | he
      · rfl
      · exact handleCommandError_no_hist env.cancelled (some x) e he
    | none =>
      simp only [waitLoop, h] at he
      rcases List.mem_cons.mp he with rfl | he
      · rfl
      · exact ih (i + 1) e he

theorem execMulti_no_hist (env : Env) (cwd : List Char) (commands : List Command) :
    ∀ e ∈ (execMulti env cwd commands).1, isHistEvent e = false := by
  intro e he
  unfold execMulti at he
  cases h1 : firstRestrictedBuiltin commands with
  | some nm => simp [h1] at he
  | none =>
    rw [h1] at he
    cases h2 : pipeLoop env 0 (commands.length - 1) with
    | some x => simp [h2] at he
    | none =>
      rw [h2] at he
      cases h3 : (startLoop env 0 commands.length).2 with
      | some x =>
        simp only [h3] at he
        exact startLoop_no_hist commands.length 0 e he
      | none =>
        simp only [h3] at he
        rcases List.mem_append.mp he with he | he
        · exact startLoop_no_hist commands.length 0 e he
        · exact waitLoop_no_hist commands.length 0 e he

theorem executeSingleCommand_no_hist (env : Env) (cwd : List Char) (c : Command) :
    ∀ e ∈ (executeSingleCommand env cwd c).1, isHistEvent e = false := by
  intro e he
  by_cases h1 : c.name = ([] : List Char)
  · simp [executeSingleCommand, h1] at he
  by_cases h2 : c.name = "exit".data
  · simp [executeSingleCommand, h1, h2] at he
  by_cases h3 : c.name = "cd".data
  · simp [executeSingleCommand, h1, h2, h3] at he
  by_cases h4 : c.name = "history".data
  · simp only [executeSingleCommand, h1, h2, h3, h4, if_false, if_true,
      if_neg, if_pos] at he
    cases h5 : env.historyErr with
    | some x => simp [displayHistory, h1, h2, h3, h5] at he
    | none =>
      simp [displayHistory, h1, h2, h3, h5] at he
      subst he
      rfl
  · simp only [executeSingleCommand, h1, h2, h3, h4, if_neg, if_false,
      executeNotBuiltInCommand] at he
    rcases List.mem_cons.mp he with rfl | he
    · rfl
    · exact handleCommandError_no_hist env.cancelled env.runErr e he

theorem executePipeline_no_hist (env : Env) (cwd : List Char) (commands : List Command) :
    ∀ e ∈ (executePipeline env cwd commands).1, isHistEvent e = false := by
  intro e he
  cases commands with
  | nil => simp [executePipeline] at he
  | cons c1 tail =>
    cases tail with
    | nil => exact executeSingleCommand_no_hist env cwd c1 e he
    | cons c2 rest => exact execMulti_no_hist env cwd (c1 :: c2 :: rest) e he

/-! Exit characterization: only a single-stage exit terminates the
process; the multi-stage executor always returns normally. -/

theorem execMulti_normal (env : Env) (cwd : List Char) (commands : List Command) :
    ∃ r, (execMulti env cwd commands).2.2 = ExecResult.normal r := by
  unfold execMulti
  cases h1 : firstRestrictedBuiltin commands with
  | some nm => exact ⟨some (ShellError.builtinInPipeline nm), rfl⟩
  | none =>
    cases h2 : pipeLoop env 0 (commands.length - 1) with
    | some x => exact ⟨some x, rfl⟩
    | none =>
      cases h3 : (startLoop env 0 commands.length).2 with
      | some x => exact ⟨some x, by simp [h3]⟩
      | none => exact ⟨(waitLoop env 0 commands.length).2, by simp [h3]⟩

theorem executeSingleCommand_exited (env : Env) (cwd : List Char) (c : Command)
    (code : Nat) (h : (executeSingleCommand env cwd c).2.2 = ExecResult.exited code) :
    c.name = "exit".data := by
  by_cases h1 : c.name = ([] : List Char)
  · simp [executeSingleCommand, h1] at h
  by_cases h2 : c.name = "exit".data
  · exact h2
  by_cases h3 : c.name = "cd".data
  · simp [executeSingleCommand, h1, h2, h3] at h
  by_cases h4 : c.name = "history".data
  · simp [executeSingleCommand, h1, h2, h3, h4] at h
  · simp [executeSingleCommand, h1, h2, h3, h4] at h

theorem executePipeline_exited (env : Env) (cwd : List Char)
    (commands : List Command) (code : Nat)
    (h : (executePipeline env cwd commands).2.2 = ExecResult.exited code) :
    ∃ args, commands = [Command.mk "exit".data args] := by
  cases commands with
  | nil => simp [executePipeline] at h
  | cons c1 tail =>
    cases tail with
    | nil =>
      refine ⟨c1.args, ?_⟩
      have hn := executeSingleCommand_exited env cwd c1 code h
      cases c1
      simp_all
    | cons c2 rest =>
      rcases execMulti_normal env cwd (c1 :: c2 :: rest) with ⟨r, hr⟩
      rw [show executePipeline env cwd (c1 :: c2 :: rest) =
        execMulti env cwd (c1 :: c2 :: rest) from rfl] at h
      rw [hr] at h
      cases h

/-- Under no rejected builtin, successful pipe wiring and successful
starts, the multi-stage executor's trace is: all starts, then whatever
the wait loop does. -/
theorem execMulti_clean (env : Env) (cwd : List Char) (commands : List Command)
    (hfrb : firstRestrictedBuiltin commands = none)
    (hpipe : ∀ j, j < commands.length - 1 → env.pipeErr j = none)
    (hstart : ∀ j, j < commands.length → env.startErr j = none) :
    execMulti env cwd commands =
      (eventRange Event.start 0 commands.length ++ (waitLoop env 0 commands.length).1,
       cwd, ExecResult.normal (waitLoop env 0 commands.length).2) := by
  have hp : pipeLoop env 0 (commands.length - 1) = none :=
    pipeLoop_eq_none (commands.length - 1) 0 (fun j hj => by simpa using hpipe j hj)
  have hs : startLoop env 0 commands.length =
      (eventRange Event.start 0 commands.length, none) :=
    startLoop_allOk commands.length 0 (fun j hj => by simpa using hstart j hj)
  unfold execMulti
  rw [hfrb, hp, hs]

/-- C5: a multi-stage pipeline with a stage named cd or exit is
rejected with a builtin-in-pipeline error naming such a builtin, and
no stage process is spawned: the event trace is empty. -/
theorem executePipeline_rejects_builtin (env : Env) (cwd : List Char)
    (commands : List Command) (hlen : 2 ≤ commands.length)
    (hex : ∃ c ∈ commands, c.name = "cd".data ∨ c.name = "exit".data) :
    ∃ nm, executePipeline env cwd commands =
        ([], cwd, ExecResult.normal (some (ShellError.builtinInPipeline nm))) ∧
      (∃ c ∈ commands, c.name = nm) ∧
      (nm = "cd".data ∨ nm = "exit".data) := by
  rcases frb_some_of_mem hex with ⟨nm, h1, h2, h3⟩
  cases commands with
  | nil => simp at hlen
  | cons c1 tail =>
    cases tail with
    | nil => simp at hlen
    | cons c2 rest =>
      refine ⟨nm, ?_, h2, h3⟩
      rw [show executePipeline env cwd (c1 :: c2 :: rest) =
        execMulti env cwd (c1 :: c2 :: rest) from rfl]
      unfold execMulti
      rw [h1]

/-- C1 (amended): with all stages started, the executor waits on the
stages in start order only up to and including the first failing wait:
it returns at that point, translating the failure through the
cancellation rule (one newline and success when the token is
cancelled, the error unchanged otherwise), without waiting on the
remaining stages; if every wait succeeds it waits on all stages and
returns success. -/
theorem executePipeline_first_wait_failure_short_circuits :
    (∀ (env : Env) (cwd : List Char) (commands : List Command) (k e : Nat),
      2 ≤ commands.length →
      (∀ c ∈ commands, c.name ≠ "cd".data ∧ c.name ≠ "exit".data) →
      (∀ j, j < commands.length - 1 → env.pipeErr j = none) →
      (∀ j, j < commands.length → env.startErr j = none) →
      k < commands.length →
      (∀ j, j < k → env.waitErr j = none) →
      env.waitErr k = some e →
      executePipeline env cwd commands =
        (eventRange Event.start 0 commands.length ++ eventRange Event.wait 0 (k + 1) ++
           (if env.cancelled then [Event.newline] else []),
         cwd,
         ExecResult.normal (if env.cancelled then none else some (ShellError.os e)))) ∧
    (∀ (env : Env) (cwd : List Char) (commands : List Command),
      2 ≤ commands.length →
      (∀ c ∈ commands, c.name ≠ "cd".data ∧ c.name ≠ "exit".data) →
      (∀ j, j < commands.length - 1 → env.pipeErr j = none) →
      (∀ j, j < commands.length → env.startErr j = none) →
      (∀ j, j < commands.length → env.waitErr j = none) →
      executePipeline env cwd commands =
        (eventRange Event.start 0 commands.length ++ eventRange Event.wait 0 commands.length,
         cwd, ExecResult.normal none)) := by
  constructor
  · intro env cwd commands k e hlen hnb hpipe hstart hk h0 hke
    have hw : waitLoop env 0 commands.length =
        (eventRange Event.wait 0 (k + 1) ++
           (if env.cancelled then [Event.newline] else []),
         if env.cancelled then none else some (ShellError.os e)) :=
      waitLoop_firstFail k commands.length 0 e hk
        (fun j hj => by simpa using h0 j hj) (by simpa using hke)
    cases commands with
    | nil => simp at hlen
    | cons c1 tail =>
      cases tail with
      | nil => simp at hlen
      | cons c2 rest =>
        rw [show executePipeline env cwd (c1 :: c2 :: rest) =
          execMulti env cwd (c1 :: c2 :: rest) from rfl,
          execMulti_clean env cwd (c1 :: c2 :: rest) (frb_eq_none hnb) hpipe hstart,
          hw]
        simp [List.append_assoc]
  · intro env cwd commands hlen hnb hpipe hstart hwa
    have hw : waitLoop env 0 commands.length =
        (eventRange Event.wait 0 commands.length, none) :=
      waitLoop_allOk commands.length 0 (fun j hj => by simpa using hwa j hj)
    cases commands with
    | nil => simp at hlen
    | cons c1 tail =>
      cases tail with
      | nil => simp at hlen
      | cons c2 rest =>
        rw [show executePipeline env cwd (c1 :: c2 :: rest) =
          execMulti env cwd (c1 :: c2 :: rest) from rfl,
          execMulti_clean env cwd (c1 :: c2 :: rest) (frb_eq_none hnb) hpipe hstart,
          hw]

/-- C2: a wait failure is suppressed exactly when the cancellation
token is cancelled.  For a single external command and for the first
failing wait of a multi-stage pipeline alike: when the token is
cancelled the trace gains exactly one newline and the reported outcome
is success; when it is not, no newline is printed and the failure is
returned unchanged. -/
theorem cancellation_suppression_iff :
    (∀ (env : Env) (cwd : List Char) (c : Command) (e : Nat),
      c.name ≠ ([] : List Char) → c.name ≠ "exit".data → c.name ≠ "cd".data →
      c.name ≠ "history".data → env.runErr = some e →
      executePipeline env cwd [c] =
        (Event.runSingle c.name c.args ::
           (if env.cancelled then [Event.newline] else []),
         cwd,
         ExecResult.normal (if env.cancelled then none else some (ShellError.os e)))) ∧
    (∀ (env : Env) (cwd : List Char) (commands : List Command) (k e : Nat),
      2 ≤ commands.length →
      (∀ c ∈ commands, c.name ≠ "cd".data ∧ c.name ≠ "exit".data) →
      (∀ j, j < commands.length - 1 → env.pipeErr j = none) →
      (∀ j, j < commands.length → env.startErr j = none) →
      k < commands.length →
      (∀ j, j < k → env.waitErr j = none) →
      env.waitErr k = some e →
      ((executePipeline env cwd commands).1.count Event.newline =
        if env.cancelled then 1 else 0) ∧
      (executePipeline env cwd commands).2.2 =
        ExecResult.normal (if env.cancelled then none else some (ShellError.os e))) := by
  constructor
  · intro env cwd c e h1 h2 h3 h4 hrun
    rw [show executePipeline env cwd [c] = executeSingleCommand env cwd c from rfl]
    unfold executeSingleCommand
    rw [if_neg h1, if_neg h2, if_neg h3, if_neg h4]
    unfold executeNotBuiltInCommand handleCommandError
    rw [hrun]
    cases hc : env.cancelled <;> simp [hc]
  · intro env cwd commands k e hlen hnb hpipe hstart hk h0 hke
    have hw : waitLoop env 0 commands.length =
        (eventRange Event.wait 0 (k + 1) ++
           (if env.cancelled then [Event.newline] else []),
         if env.cancelled then none else some (ShellError.os e)) :=
      waitLoop_firstFail k commands.length 0 e hk
        (fun j hj => by simpa using h0 j hj) (by simpa using hke)
    have hmain : executePipeline env cwd commands =
        (eventRange Event.start 0 commands.length ++
           (eventRange Event.wait 0 (k + 1) ++
             (if env.cancelled then [Event.newline] else [])),
         cwd,
         ExecResult.normal (if env.cancelled then none else some (ShellError.os e))) := by
      cases commands with
      | nil => simp at hlen
      | cons c1 tail =>
        cases tail with
        | nil => simp at hlen
        | cons c2 rest =>
          rw [show executePipeline env cwd (c1 :: c2 :: rest) =
            execMulti env cwd (c1 :: c2 :: rest) from rfl,
            execMulti_clean env cwd (c1 :: c2 :: rest) (frb_eq_none hnb) hpipe hstart,
            hw]
    rw [hmain]
    refine ⟨?_, rfl⟩
    rw [List.count_append, List.count_append,
      List.count_eq_zero.mpr (newline_not_mem_eventRange_start 0 commands.length),
      List.count_eq_zero.mpr (newline_not_mem_eventRange_wait 0 (k + 1))]
    cases env.cancelled <;> simp

/-- C6: given an open history handle and a successful write, one loop
iteration appends the raw input line to the history exactly when the
parsed pipeline is non-empty and, if it has exactly one stage, that
stage is neither history nor exit; multi-stage pipelines are always
recorded; and the append happens after all execution events. -/
theorem history_recording_iff (env : Env) (cwd input : List Char)
    (commands : List Command)
    (hp : parseInput input = Except.ok commands)
    (hopen : env.histOpen = true)
    (hw : env.histWriteErr = none) :
    (loopIteration env cwd input).1 =
      (executePipeline env cwd commands).1 ++
        (if shouldBeInHistory commands then [Event.appendHist input] else []) ∧
    (shouldBeInHistory commands = true ↔
      (commands ≠ [] ∧ ∀ c, commands = [c] →
        (c.name ≠ "history".data ∧ c.name ≠ "exit".data))) ∧
    ((∃ l, Event.appendHist l ∈ (loopIteration env cwd input).1) ↔
      shouldBeInHistory commands = true) := by
  have hnh := executePipeline_no_hist env cwd commands
  have conj1 : (loopIteration env cwd input).1 =
      (executePipeline env cwd commands).1 ++
        (if shouldBeInHistory commands then [Event.appendHist input] else []) := by
    rcases hxe : executePipeline env cwd commands with ⟨evs, cwd2, res⟩
    cases res with
    | exited code =>
      rcases executePipeline_exited env cwd commands code (by rw [hxe]) with ⟨args, rfl⟩
      have hsb : shouldBeInHistory [Command.mk "exit".data args] = false := by
        simp [shouldBeInHistory]
      simp only [loopIteration, hp, hxe, hsb]
      simp
    | normal r =>
      cases hsb : shouldBeInHistory commands with
      | false => simp only [loopIteration, hp, hxe, hsb]; simp
      | true =>
        simp only [loopIteration, hp, hxe, hsb, hopen, hw, saveHistory, if_true]
  refine ⟨conj1, ?_, ?_⟩
  · cases commands with
    | nil => simp [shouldBeInHistory]
    | cons c tail =>
      cases tail with
      | nil => simp [shouldBeInHistory]
      | cons c2 rest => simp [shouldBeInHistory]
  · constructor
    · rintro ⟨l, hl⟩
      by_contra hsb
      have hsb' : shouldBeInHistory commands = false := by
        cases h : shouldBeInHistory commands
        · rfl
        · exact absurd h hsb
      rw [conj1, hsb'] at hl
      simp at hl
      have := hnh (Event.appendHist l) hl
      simp [isHistEvent] at this
    · intro hsb
      refine ⟨input, ?_⟩
      rw [conj1, hsb]
      simp

/-- C7: on the input line exit, the process terminates immediately with
status 0, and the iteration's event trace is empty - in particular the
history handle is never closed on the way out, because os.Exit skips
main's deferred closeHistory. -/
theorem exit_terminates_without_closing_history (env : Env) (cwd : List Char) :
    loopIteration env cwd ("exit".data ++ ['\n']) = ([], cwd, some 0) ∧
    Event.closeHist ∉ (loopIteration env cwd ("exit".data ++ ['\n'])).1 := by
  refine ⟨rfl, ?_⟩
  rw [show loopIteration env cwd ("exit".data ++ ['\n']) = ([], cwd, some 0) from rfl]
  simp

/-- C8: the cd builtin resolves its target to the first argument when
one is given and to the home directory otherwise; on success the
working directory becomes that target, and on failure the working
directory is unchanged and the underlying OS error is propagated to
the caller unchanged. -/
theorem cd_resolves_target_and_propagates_error (env : Env) (cwd : List Char)
    (args : List (List Char)) :
    (∀ a rest, args = a :: rest → cdTarget env args = a) ∧
    (args = [] → cdTarget env args = env.home) ∧
    (env.chdirErr (cdTarget env args) = none →
      executePipeline env cwd [Command.mk "cd".data args] =
        ([], cdTarget env args, ExecResult.normal none)) ∧
    (∀ e, env.chdirErr (cdTarget env args) = some e →
      executePipeline env cwd [Command.mk "cd".data args] =
        ([], cwd, ExecResult.normal (some (ShellError.os e)))) := by
  have hdel : executePipeline env cwd [Command.mk "cd".data args] =
      ([], (executeCdCommand env cwd args).1,
        ExecResult.normal (executeCdCommand env cwd args).2) := rfl
  refine ⟨?_, ?_, ?_, ?_⟩
  · rintro a rest rfl; rfl
  · rintro rfl; rfl
  · intro h
    rw [hdel]
    unfold executeCdCommand
    rw [h]
  · intro e h
    rw [hdel]
    unfold executeCdCommand
    rw [h]

/-- C10: with a nil history handle (failed open at startup), saving to
history is a silent no-op returning success for every line: the
iteration never appends to the log and never reports a history write
error. -/
theorem saveHistory_noop_when_handle_nil :
    (∀ (writeErr : Option Nat) (input : List Char),
      saveHistory false writeErr input = ([], none)) ∧
    (∀ (env : Env) (cwd input : List Char), env.histOpen = false →
      (∀ l, Event.appendHist l ∉ (loopIteration env cwd input).1) ∧
      Event.histWarn ∉ (loopIteration env cwd input).1) := by
  constructor
  · intro writeErr input; rfl
  · intro env cwd input hcl
    cases hp : parseInput input with
    | error e =>
      simp [loopIteration, hp]
    | ok commands =>
      have hnh := executePipeline_no_hist env cwd commands
      rcases hxe : executePipeline env cwd commands with ⟨evs, cwd2, res⟩
      rw [hxe] at hnh
      have hevs : (∀ l, Event.appendHist l ∉ evs) ∧ Event.histWarn ∉ evs := by
        constructor
        · intro l hl
          have := hnh (Event.appendHist l) hl
          simp [isHistEvent] at this
        · intro hl
          have := hnh Event.histWarn hl
          simp [isHistEvent] at this
      cases res with
      | exited code =>
        simp only [loopIteration, hp, hxe]
        exact hevs
      | normal r =>
        cases hsb : shouldBeInHistory commands with
        | false =>
          simp only [loopIteration, hp, hxe, hsb]
          simpa using hevs
        | true =>
          simp only [loopIteration, hp, hxe, hsb, hcl, saveHistory, if_false]
          simpa using hevs

/-! Concrete environments for witnesses and counterexamples. -/

/-- An environment in which every OS interaction succeeds and the
history handle is open. -/
def envAllOk : Env :=
  Env.mk "/home/u".data (fun _ => none) none false (fun _ => none) (fun _ => none)
    (fun _ => none) none [] true none

/-- Like envAllOk but os.Chdir always fails with code 2. -/
def envChdirFail : Env :=
  Env.mk "/home/u".data (fun _ => some 2) none false (fun _ => none) (fun _ => none)
    (fun _ => none) none [] true none

/-- The token is not cancelled; a single command's Run fails with
code 3 and the wait on stage 0 of a pipeline fails with code 5. -/
def envFailPlain : Env :=
  Env.mk "/home/u".data (fun _ => none) (some 3) false (fun _ => none) (fun _ => none)
    (fun i => if i = 0 then some 5 else none) none [] true none

/-- Like envFailPlain but with the cancellation token cancelled. -/
def envFailCancel : Env :=
  Env.mk "/home/u".data (fun _ => none) (some 3) true (fun _ => none) (fun _ => none)
    (fun i => if i = 0 then some 5 else none) none [] true none

/-- Like envAllOk but the history handle failed to open. -/
def envClosed : Env :=
  Env.mk "/home/u".data (fun _ => none) none false (fun _ => none) (fun _ => none)
    (fun _ => none) none [] false none

/-- C1, counterexample to the claim as stated: in a two-stage pipeline
whose stages both start, when the wait on stage 0 fails without
cancellation the executor returns at once with that error; its trace
holds no wait on stage 1, refuting "continues waiting on all remaining
stages". -/
theorem executePipeline_c1_counterexample :
    executePipeline envFailPlain "/w".data
        [Command.mk "u".data [], Command.mk "v".data []] =
      ([Event.start 0, Event.start 1, Event.wait 0], "/w".data,
        ExecResult.normal (some (ShellError.os 5))) ∧
    Event.wait 1 ∉ [Event.start 0, Event.start 1, Event.wait 0] :=
  ⟨by decide, by decide⟩

/-- Witness for the amended C1: a three-stage pipeline failing at the
first wait, and a two-stage pipeline whose waits all succeed. -/
theorem executePipeline_first_wait_failure_short_circuits_witness :
    executePipeline envFailPlain "/w".data
        [Command.mk "u".data [], Command.mk "v".data [], Command.mk "x".data []] =
      (eventRange Event.start 0 3 ++ eventRange Event.wait 0 (0 + 1) ++
         (if envFailPlain.cancelled then [Event.newline] else []),
       "/w".data,
       ExecResult.normal (if envFailPlain.cancelled then none
         else some (ShellError.os 5))) ∧
    executePipeline envAllOk "/w".data
        [Command.mk "u".data [], Command.mk "v".data []] =
      (eventRange Event.start 0 2 ++ eventRange Event.wait 0 2, "/w".data,
       ExecResult.normal none) :=
  ⟨executePipeline_first_wait_failure_short_circuits.1 envFailPlain "/w".data
      [Command.mk "u".data [], Command.mk "v".data [], Command.mk "x".data []] 0 5
      (by decide) (by decide) (fun j hj => rfl) (fun j hj => rfl) (by decide)
      (fun j hj => absurd hj (Nat.not_lt_zero j)) rfl,
   executePipeline_first_wait_failure_short_circuits.2 envAllOk "/w".data
      [Command.mk "u".data [], Command.mk "v".data []]
      (by decide) (by decide) (fun j hj => rfl) (fun j hj => rfl) (fun j hj => rfl)⟩

/-- Witness for C2: a failing single external command and a failing
first wait of a two-stage pipeline, each under a cancelled and a
non-cancelled token. -/
theorem cancellation_suppression_iff_witness :
    executePipeline envFailCancel "/w".data [Command.mk "sleep".data ["100".data]] =
      (Event.runSingle "sleep".data ["100".data] ::
         (if envFailCancel.cancelled then [Event.newline] else []),
       "/w".data,
       ExecResult.normal (if envFailCancel.cancelled then none
         else some (ShellError.os 3))) ∧
    executePipeline envFailPlain "/w".data [Command.mk "sleep".data ["100".data]] =
      (Event.runSingle "sleep".data ["100".data] ::
         (if envFailPlain.cancelled then [Event.newline] else []),
       "/w".data,
       ExecResult.normal (if envFailPlain.cancelled then none
         else some (ShellError.os 3))) ∧
    ((executePipeline envFailCancel "/w".data
        [Command.mk "u".data [], Command.mk "v".data []]).1.count Event.newline =
      if envFailCancel.cancelled then 1 else 0) ∧
    ((executePipeline envFailPlain "/w".data
        [Command.mk "u".data [], Command.mk "v".data []]).2.2 =
      ExecResult.normal (if envFailPlain.cancelled then none
        else some (ShellError.os 5))) :=
  ⟨cancellation_suppression_iff.1 envFailCancel "/w".data
      (Command.mk "sleep".data ["100".data]) 3
      (by decide) (by decide) (by decide) (by decide) rfl,
   cancellation_suppression_iff.1 envFailPlain "/w".data
      (Command.mk "sleep".data ["100".data]) 3
      (by decide) (by decide) (by decide) (by decide) rfl,
   (cancellation_suppression_iff.2 envFailCancel "/w".data
      [Command.mk "u".data [], Command.mk "v".data []] 0 5
      (by decide) (by decide) (fun j hj => rfl) (fun j hj => rfl) (by decide)
      (fun j hj => absurd hj (Nat.not_lt_zero j)) rfl).1,
   (cancellation_suppression_iff.2 envFailPlain "/w".data
      [Command.mk "u".data [], Command.mk "v".data []] 0 5
      (by decide) (by decide) (fun j hj => rfl) (fun j hj => rfl) (by decide)
      (fun j hj => absurd hj (Nat.not_lt_zero j)) rfl).2⟩

/-- Witness for C5 at the spec's example: cd as the first of two
stages. -/
theorem executePipeline_rejects_builtin_witness :
    ∃ nm, executePipeline envAllOk "/w".data
        [Command.mk "cd".data ["/x".data], Command.mk "ls".data []] =
        ([], "/w".data, ExecResult.normal (some (ShellError.builtinInPipeline nm))) ∧
      (∃ c ∈ [Command.mk "cd".data ["/x".data], Command.mk "ls".data []],
        c.name = nm) ∧
      (nm = "cd".data ∨ nm = "exit".data) :=
  executePipeline_rejects_builtin envAllOk "/w".data
    [Command.mk "cd".data ["/x".data], Command.mk "ls".data []]
    (by decide) (by decide)

/-- Witness for C6 on the line ls -la: the single non-builtin command
is recorded, after execution. -/
theorem history_recording_iff_witness :
    (loopIteration envAllOk "/w".data ("ls -la".data ++ ['\n'])).1 =
      (executePipeline envAllOk "/w".data [Command.mk "ls".data ["-la".data]]).1 ++
        (if shouldBeInHistory [Command.mk "ls".data ["-la".data]] then
          [Event.appendHist ("ls -la".data ++ ['\n'])] else []) ∧
    (shouldBeInHistory [Command.mk "ls".data ["-la".data]] = true ↔
      ([Command.mk "ls".data ["-la".data]] ≠ [] ∧
        ∀ c, [Command.mk "ls".data ["-la".data]] = [c] →
          (c.name ≠ "history".data ∧ c.name ≠ "exit".data))) ∧
    ((∃ l, Event.appendHist l ∈
        (loopIteration envAllOk "/w".data ("ls -la".data ++ ['\n'])).1) ↔
      shouldBeInHistory [Command.mk "ls".data ["-la".data]] = true) :=
  history_recording_iff envAllOk "/w".data ("ls -la".data ++ ['\n'])
    [Command.mk "ls".data ["-la".data]] (by decide) rfl rfl

/-- Witness for C8: cd with no argument goes to the home directory and
succeeds; cd to a failing target leaves the working directory alone
and surfaces the OS error unchanged. -/
theorem cd_resolves_target_and_propagates_error_witness :
    executePipeline envAllOk "/w".data [Command.mk "cd".data []] =
      ([], cdTarget envAllOk [], ExecResult.normal none) ∧
    executePipeline envChdirFail "/w".data [Command.mk "cd".data ["/x".data]] =
      ([], "/w".data, ExecResult.normal (some (ShellError.os 2))) :=
  ⟨(cd_resolves_target_and_propagates_error envAllOk "/w".data []).2.2.1 rfl,
   (cd_resolves_target_and_propagates_error envChdirFail "/w".data
      ["/x".data]).2.2.2 2 rfl⟩

/-- Witness for C10: with the handle nil, saving is a no-op success
and an iteration on a recordable line appends nothing and warns of
nothing. -/
theorem saveHistory_noop_when_handle_nil_witness :
    saveHistory false (some 9) ("x".data ++ ['\n']) = ([], none) ∧
    ((∀ l, Event.appendHist l ∉
        (loopIteration envClosed "/w".data ("ls".data ++ ['\n'])).1) ∧
      Event.histWarn ∉ (loopIteration envClosed "/w".data ("ls".data ++ ['\n'])).1) :=
  ⟨saveHistory_noop_when_handle_nil.1 (some 9) ("x".data ++ ['\n']),
   saveHistory_noop_when_handle_nil.2 envClosed "/w".data ("ls".data ++ ['\n']) rfl⟩
